import Mathlib

/-!
Verification development for the PyChilasLasers calibration-driven
wavelength-control subsystem.

Shallow embedding conventions:
* Python floats that carry calibration data (wavelengths, heater voltages,
  anti-hysteresis offsets, hold times) are modelled as rationals; the code
  only compares, subtracts and minimises them.
* A value written to the phase-section heater by the anti-hysteresis ramp is
  the square root of a rational; such writes are recorded by their squares
  (the map x to x^2 is injective on the nonnegative reals, so equalities of
  written values correspond to equalities of the recorded squares).
* Python exceptions are modelled by `Except PyError`.
* Python dicts keyed by wavelength are modelled by their lookup behaviour:
  the value of a key is the one stored by the last insertion for that key.
-/

/-- Python `str.strip()`: remove leading and trailing whitespace
(modelled on the characters of the string). -/
def pyStrip (s : String) : String :=
  ⟨((s.data.dropWhile Char.isWhitespace).reverse.dropWhile Char.isWhitespace).reverse⟩

/-- Python `str.lower()` on the ASCII mode-name strings used here. -/
def pyLower (s : String) : String :=
  ⟨s.data.map Char.toLower⟩

/-- Python `s[n:]`: drop the first `n` characters. -/
def pyDropChars (n : ℕ) (s : String) : String :=
  ⟨s.data.drop n⟩

/-- Python exceptions that the embedded code can raise. -/
inductive PyError where
  | keyError
  | valueError
  | indexError
  | calibrationError
  | notImplementedError
deriving DecidableEq, Repr

/-- One row of the calibration table, after parsing
(`pychilaslasers/calibration.py`, class `CalibrationEntry`).  The derived
`heater_values` tuple is exactly the four heater fields in order and is not
repeated here. -/
structure CalibrationEntry where
  wavelength : ℚ
  phase_section : ℚ
  large_ring : ℚ
  small_ring : ℚ
  coupler : ℚ
  mode_index : Option ℕ
  mode_hop_flag : Bool
  cycler_index : ℕ
deriving DecidableEq, Repr

/-- A non-blank data row of the `[look_up_table]` block, with its six
semicolon-separated fields already split and the four voltages and the
wavelength already converted by `float(...)`.  The mode-hop column is kept
as the raw string, since the two parsers in the repository compare it to
`"1"`/`"0"` in different ways.  Blank rows (skipped by `_parse_rows`) and
rows with fewer than six columns (a `CalibrationError`) are below this
representation. -/
structure RawRow where
  phase_section : ℚ
  large_ring : ℚ
  small_ring : ℚ
  coupler : ℚ
  wavelength : ℚ
  hop_flag : String
deriving DecidableEq, Repr

/-- Loop body state of `_parse_rows` (`calibration.py` lines 463-506):
`cycler_index`, `mode_index` and the `in_hop` flag. -/
def parseRowsGo (model : String) : List RawRow → ℕ → ℕ → Bool → List CalibrationEntry
  | [], _, _, _ => []
  | r :: rs, cycler, modeIdx, inHop =>
    if model = "COMET" then
      -- hop flag as bool: `str(row[5]).strip() == "1"`
      let hopFlag : Bool := pyStrip r.hop_flag = "1"
      -- rising/falling edge handling of the in-hop flag
      let next : Bool × ℕ :=
        if inHop ∧ ¬hopFlag then (false, modeIdx)
        else if ¬inHop ∧ hopFlag then (true, modeIdx + 1)
        else (inHop, modeIdx)
      { wavelength := r.wavelength
        phase_section := r.phase_section
        large_ring := r.large_ring
        small_ring := r.small_ring
        coupler := r.coupler
        mode_index := some next.2
        mode_hop_flag := hopFlag
        cycler_index := cycler } :: parseRowsGo model rs (cycler + 1) next.2 next.1
    else
      { wavelength := r.wavelength
        phase_section := r.phase_section
        large_ring := r.large_ring
        small_ring := r.small_ring
        coupler := r.coupler
        mode_index := none
        mode_hop_flag := false
        cycler_index := cycler } :: parseRowsGo model rs (cycler + 1) modeIdx inHop

/-- `_parse_rows` of `calibration.py`: `cycler_index` starts at 0, the mode
counter starts at 1, `in_hop` starts false. -/
def parseRows (model : String) (rows : List RawRow) : List CalibrationEntry :=
  parseRowsGo model rows 0 1 false

/-- Mode-index assignment loop of `read_calibration_file`
(`utils.py` lines 118-148).  Returns the `mode_index` stored with each row,
in file order, for the given hop-flag column values (the other five columns
do not influence the assignment).  The counter starts at 0 and the flag
comparisons use the raw string, without `strip()`, exactly as in the source:

    if hop and row[5] == "0": hop = False
    if row[5] == "1": hop = True; mode_index += 1
    else: mode_index += 1
-/
def readCalibGo : List String → ℕ → Bool → List ℕ
  | [], _, _ => []
  | f :: fs, modeIdx, hop =>
    let hop1 : Bool := if hop ∧ f = "0" then false else hop
    let next : Bool × ℕ :=
      if f = "1" then (true, modeIdx + 1) else (hop1, modeIdx + 1)
    next.2 :: readCalibGo fs next.2 next.1

/-- Mode indices assigned by `utils.read_calibration_file` for a COMET model,
one per data row, given the hop-flag column. -/
def readCalibModeIndices (flags : List String) : List ℕ :=
  readCalibGo flags 0 false

/-- The `Calibration` dataclass (`calibration.py`).  The `_direct_access`
dict, the tune/sweep `ModeSetting`s and the iteration/`len` protocol are
derived from `entries` and modelled by the functions below. -/
structure Calibration where
  model : String
  entries : List CalibrationEntry
  min_wl : ℚ
  max_wl : ℚ
  step_size : Option ℚ
deriving DecidableEq, Repr

/-- Lookup in the `_direct_access` dict
`{entry.wavelength: entry for entry in entries if not entry.mode_hop_flag}`:
the value found for a wavelength is the last non-mode-hop entry with that
wavelength (later insertions overwrite earlier ones). -/
def directAccessLookup : List CalibrationEntry → ℚ → Option CalibrationEntry
  | [], _ => none
  | e :: es, w =>
    match directAccessLookup es w with
    | some r => some r
    | none => if e.mode_hop_flag = false ∧ e.wavelength = w then some e else none

/-- The key list of the `_direct_access` dict, in Python dict iteration
order: each distinct non-mode-hop wavelength once, at its first occurrence. -/
def directAccessKeys : List CalibrationEntry → List ℚ
  | [] => []
  | e :: es =>
    if e.mode_hop_flag = false then
      e.wavelength :: (directAccessKeys es).filter (fun k => decide ¬(k = e.wavelength))
    else directAccessKeys es

/-- `min(iterable, key=key)` on a nonempty iterable whose first element is
`m`: Python keeps the first element among those of minimal key. -/
def pyMinByGo (key : ℚ → ℚ) (m : ℚ) : List ℚ → ℚ
  | [] => m
  | y :: ys => pyMinByGo key (if key y < key m then y else m) ys

/-- `min(l, key=key)`: `none` models the `ValueError` on an empty iterable. -/
def pyMinBy (key : ℚ → ℚ) : List ℚ → Option ℚ
  | [] => none
  | x :: xs => some (pyMinByGo key x xs)

/-- `Calibration.__init__` (`calibration.py` lines 202-238).
`max_wl` is the first and `min_wl` the last wavelength of the entry list;
an empty entry list raises `CalibrationError`; the `step_size` computation
leaves the attribute unset (modelled `none`) when its index access fails. -/
def mkCalibration (model : String) (entries : List CalibrationEntry) : Except PyError Calibration :=
  match entries with
  | [] => .error .calibrationError
  | e :: es =>
    let wavelengths : List ℚ := (e :: es).map (fun x => x.wavelength)
    let c : ℕ := wavelengths.count e.wavelength
    .ok { model := model
          entries := e :: es
          max_wl := e.wavelength
          min_wl := (es.map (fun x => x.wavelength)).getLastD e.wavelength
          step_size :=
            match wavelengths[c]? with
            | some x => some |e.wavelength - x|
            | none => none }

/-- `Calibration.__contains__` for a wavelength: inclusive range check. -/
def Calibration.containsWl (c : Calibration) (w : ℚ) : Prop :=
  c.min_wl ≤ w ∧ c.max_wl ≥ w

instance (c : Calibration) (w : ℚ) : Decidable (c.containsWl w) := by
  unfold Calibration.containsWl; infer_instance

/-- `Calibration.__getitem__` (`calibration.py` lines 266-289): exact match
in the direct-access dict, else nearest key among the dict keys if the
wavelength is in range, else `KeyError`.  `min` of an empty key sequence
raises `ValueError`. -/
def Calibration.getItem (c : Calibration) (w : ℚ) : Except PyError CalibrationEntry :=
  match directAccessLookup c.entries w with
  | some e => .ok e
  | none =>
    if c.containsWl w then
      match pyMinBy (fun x => |x - w|) (directAccessKeys c.entries) with
      | some k =>
        match directAccessLookup c.entries k with
        | some e => .ok e
        | none => .error .keyError
      | none => .error .valueError
    else .error .keyError

/-- Commands sent to the laser over `Laser.query`, restricted to the shapes
the steady-mode wavelength change can produce.  A phase-section write made
by the anti-hysteresis ramp transmits the square root of the recorded
rational (see the file comment). -/
inductive PyCmd where
  | drvDP (channel : ℕ) (value : ℚ)
  | drvU
  | drvDSqrt (channel : ℕ) (valueSq : ℚ)
  | drvCycLoad (index : ℕ)
  | cycTrig (high : Bool)
deriving DecidableEq, Repr

/-- The squares of the values written inside the `while offset >= 0` loop of
`_WLChangeMethod._antihyst` (`steady_mode.py` lines 130-143), one per
iteration: the loop writes `((initial_phase ** 2) + offset) ** 0.5` and then
decrements `offset` by 2.  `initSq` is `initial_phase ** 2`. -/
def antihystLoopWrites (initSq offset : ℚ) : List ℚ :=
  if h : 0 ≤ offset then (initSq + offset) :: antihystLoopWrites initSq (offset - 2)
  else []
termination_by (⌈offset⌉ + 1).toNat
decreasing_by
  have h2 : ⌈offset - 2⌉ = ⌈offset⌉ - 2 := by
    exact_mod_cast Int.ceil_sub_int offset (2 : ℤ)
  have h3 : (0 : ℤ) ≤ ⌈offset⌉ := Int.ceil_nonneg h
  omega

/-- The square of the value `v_phase_anti_hyst` holds after the same loop:
its initial value is `initial_phase`, and each iteration overwrites it with
the value it writes.  `vSq` is the square of the current value. -/
def antihystLoopLast (initSq offset vSq : ℚ) : ℚ :=
  if _h : 0 ≤ offset then antihystLoopLast initSq (offset - 2) (initSq + offset)
  else vSq
termination_by (⌈offset⌉ + 1).toNat
decreasing_by
  have h2 : ⌈offset - 2⌉ = ⌈offset⌉ - 2 := by
    exact_mod_cast Int.ceil_sub_int offset (2 : ℤ)
  have h3 : (0 : ℤ) ≤ ⌈offset⌉ := Int.ceil_nonneg _h
  omega

/-- `_WLChangeMethod._antihyst` (`steady_mode.py` lines 130-143), recording
phase-section writes by their squares.  `initialPhase` is the table value
`self._calibration_table[self._wavelength].phase_section`; the ramp uses
only the first configured offset (`parameters[0][0]`, an `IndexError` when
the offset list is empty) and the first hold time (`parameters[1][0]`,
evaluated inside the loop body only, hence an `IndexError` only when the
loop runs at least once); after the loop the last value of
`v_phase_anti_hyst` is written once more. -/
def steadyAntihystWritesSq (voltsSq times : List ℚ) (initialPhase : ℚ) : Except PyError (List ℚ) :=
  match voltsSq with
  | [] => .error .indexError
  | o :: _ =>
    if 0 ≤ o ∧ times = [] then .error .indexError
    else
      .ok (antihystLoopWrites (initialPhase ^ 2) o ++
           [antihystLoopLast (initialPhase ^ 2) o (initialPhase ^ 2)])

/-- Lookup in the steady-mode calibration table
`calibration["steady"]["calibration"]` built by `read_calibration_file`:
a dict keyed by wavelength over all rows (mode-hop rows included), so the
value of a key is the entry of the last row with that wavelength. -/
def tableLookup : List CalibrationEntry → ℚ → Option CalibrationEntry
  | [], _ => none
  | e :: es, w =>
    match tableLookup es w with
    | some r => some r
    | none => if e.wavelength = w then some e else none

/-- `_PreLoad.set_wl` (`steady_mode.py` lines 166-186).  Returns the
commands actually sent before any exception, paired with the outcome:
an error, or a flag telling whether the anti-hysteresis ramp ran.
`value not in table` raises `ValueError`; the mode-hop comparison
`table[self._wavelength].mode_index is not entry.mode_index` raises
`KeyError` when the remembered wavelength `curWl` is not a table key.
Within one parsed calibration, equal mode indices are the same Python
`int` object (entries created between two increments of the parser's
counter all share it), so `is not` is modelled as inequality. -/
def preloadSetWl (table : List CalibrationEntry) (voltsSq times : List ℚ)
    (antiEnabled : Bool) (curWl value : ℚ) : List PyCmd × Except PyError Bool :=
  match tableLookup table value with
  | none => ([], .error .valueError)
  | some entry =>
    let pre : List PyCmd :=
      [.drvDP 0 entry.phase_section, .drvDP 1 entry.large_ring,
       .drvDP 2 entry.small_ring, .drvDP 3 entry.coupler, .drvU]
    match tableLookup table curWl with
    | none => (pre, .error .keyError)
    | some curEntry =>
      if curEntry.mode_index ≠ entry.mode_index then
        if antiEnabled then
          match steadyAntihystWritesSq voltsSq times curEntry.phase_section with
          | .error err => (pre, .error err)
          | .ok ws => (pre ++ ws.map (fun s => .drvDSqrt 0 s), .ok true)
        else (pre, .ok false)
      else (pre, .ok false)

/-- `_CyclerIndex.set_wl` (`steady_mode.py` lines 190-200): load the entry
by cycler index, then run the anti-hysteresis ramp whenever it is enabled
(the ramp itself looks up the remembered wavelength `curWl`). -/
def cyclerSetWl (table : List CalibrationEntry) (voltsSq times : List ℚ)
    (antiEnabled : Bool) (curWl value : ℚ) : List PyCmd × Except PyError Bool :=
  match tableLookup table value with
  | none => ([], .error .valueError)
  | some entry =>
    let pre : List PyCmd := [.drvCycLoad entry.cycler_index]
    if antiEnabled then
      match tableLookup table curWl with
      | none => (pre, .error .keyError)
      | some curEntry =>
        match steadyAntihystWritesSq voltsSq times curEntry.phase_section with
        | .error err => (pre, .error err)
        | .ok ws => (pre ++ ws.map (fun s => .drvDSqrt 0 s), .ok true)
    else (pre, .ok false)

/-- Which `_WLChangeMethod` a `SteadyMode` holds: `_PreLoad` for COMET,
`_CyclerIndex` otherwise. -/
inductive WLMethod where
  | preload
  | cycler
deriving DecidableEq, Repr

/-- The `SteadyMode.wavelength` setter (`steady_mode.py` lines 63-73).
Returns the commands sent and either an error or the new remembered
wavelength `self._wl`; the bounds check precedes every hardware write and
every state change, so on a bounds error nothing is sent and the remembered
wavelength is still `curWl`. -/
def steadySetWavelength (minWl maxWl : ℚ) (table : List CalibrationEntry)
    (method : WLMethod) (voltsSq times : List ℚ) (antiEnabled autoTrig : Bool)
    (curWl value : ℚ) : List PyCmd × Except PyError ℚ :=
  if value < minWl ∨ value > maxWl then ([], .error .valueError)
  else
    let r :=
      match method with
      | .preload => preloadSetWl table voltsSq times antiEnabled curWl value
      | .cycler => cyclerSetWl table voltsSq times antiEnabled curWl value
    match r.2 with
    | .error err => (r.1, .error err)
    | .ok _ =>
      (r.1 ++ (if autoTrig then [.cycTrig true, .cycTrig false] else []), .ok value)

/-- `min(l)` on a nonempty list (Python `min` without a key). -/
def pyMin (x : ℚ) (xs : List ℚ) : ℚ :=
  pyMinByGo (fun y => y) x xs

/-- `max(l)` on a nonempty list. -/
def pyMaxGo (m : ℚ) : List ℚ → ℚ
  | [] => m
  | y :: ys => pyMaxGo (if m < y then y else m) ys

/-- `list.index(x)`: index of the first occurrence.  The call sites below
only use it on members, where `findIdx` agrees with Python. -/
def pyIndex (l : List ℚ) (x : ℚ) : ℕ :=
  l.findIdx (fun y => decide (y = x))

/-- `SweepMode.set_bounds` (`sweep_mode.py` lines 122-156) over the ordered
wavelength list `self._wavelengths` (nonempty: `SweepMode.__init__` already
computed `min`/`max` of it).  Returns the `DRV:CYC:SPAN` index pair, or the
`ValueError` for rejected bounds. -/
def sweepSetBounds (w0 : ℚ) (ws : List ℚ) (startWl endWl : ℚ) : Except PyError (ℕ × ℕ) :=
  let wavelengths := w0 :: ws
  let minWl := pyMin w0 ws
  let maxWl := pyMaxGo w0 ws
  if endWl < minWl ∨ startWl > maxWl then .error .valueError
  else if startWl ≤ endWl then .error .valueError
  else
    let s := if startWl ∈ wavelengths then startWl
             else pyMinByGo (fun x => |x - startWl|) w0 ws
    let e := if endWl ∈ wavelengths then endWl
             else pyMinByGo (fun x => |x - endWl|) w0 ws
    let indexStart := pyIndex wavelengths s
    let indexEnd := pyIndex wavelengths e + wavelengths.count e - 1
    .ok (indexStart, indexEnd)

/-- `Laser.query` (`laser.py` lines 141-184) as a function of the prefix
mode flag and the line read from the serial port (after `rstrip()`).
An empty reply with prefix mode off returns early with the empty reply;
an empty reply with prefix mode on reaches `reply[0]`, an `IndexError`;
otherwise the response-code check only logs and `reply[2:]` is returned. -/
def laserQuery (pfxMode : Bool) (reply : String) : Except PyError String :=
  if reply = "" ∧ pfxMode = false then .ok reply
  else if reply = "" then .error .indexError
  else .ok (pyDropChars 2 reply)

/-- The three mode objects a `Laser` can hold. -/
inductive WhichMode where
  | manual
  | steady
  | sweep
deriving DecidableEq, Repr

/-- Which mode objects were initialized, and the current `self._mode`.
`self._manual_mode` is always initialized; `self._steady_mode` or
`self._sweep_mode` may be `None`. -/
structure LaserModesState where
  steadyInit : Bool
  sweepInit : Bool
  current : Option WhichMode
deriving DecidableEq, Repr

/-- The `mode_mappings` dict of the `Laser.mode` setter
(`laser.py` lines 294-309), in insertion order. -/
def modeMappings : List (String × WhichMode) :=
  [("manual", .manual), ("steady", .steady), ("sweep", .sweep),
   ("manuel", .manual), ("manua", .manual), ("man", .manual),
   ("steadi", .steady), ("stead", .steady), ("ste", .steady),
   ("swep", .sweep), ("swp", .sweep), ("sweap", .sweep),
   ("sweepin", .sweep), ("sweeping", .sweep)]

/-- Dict lookup in `mode_mappings` (all keys are distinct). -/
def lookupMapping (s : String) : Option WhichMode :=
  (modeMappings.find? (fun p => p.1 == s)).map (fun p => p.2)

/-- The mode object stored in the slot a mapping points to: `none` models a
slot holding Python `None` (uninitialized mode). -/
def slotValue (st : LaserModesState) : WhichMode → Option WhichMode
  | .manual => some .manual
  | .steady => if st.steadyInit then some .steady else none
  | .sweep => if st.sweepInit then some .sweep else none

/-- The string/`LaserMode` branch of the `Laser.mode` setter
(`laser.py` lines 289-321).  The input is lower-cased and looked up in
`mode_mappings`; on a hit `self._mode` is replaced by the slot's content
(possibly `None`), on a miss it is left unchanged.  Then
`if self._mode is None` raises `NotImplementedError`; otherwise
`apply_defaults()` runs on whatever `self._mode` now is, and the setter
returns normally.  Result: the new current mode on normal return
(`apply_defaults` having run on it), or the error. -/
def setModeString (st : LaserModesState) (s : String) : Except PyError WhichMode :=
  let newCur : Option WhichMode :=
    match lookupMapping (pyLower s) with
    | some slot => slotValue st slot
    | none => st.current
  match newCur with
  | none => .error .notImplementedError
  | some m => .ok m

/-- The occurrences of `x` in `l` are contiguous: any position lying
between two positions holding `x` also holds `x`.  This is how duplicate
wavelengths arise in calibration tables (adjacent mode-hop rows); the
`first occurrence + count - 1` index arithmetic of `set_bounds` computes
the last occurrence exactly under this condition. -/
def ContigOcc (l : List ℚ) (x : ℚ) : Prop :=
  ∀ i j k : ℕ, i ≤ j → j ≤ k → l[i]? = some x → l[k]? = some x → l[j]? = some x

/-! ### Helper lemmas -/

theorem floor_shift_two (offset : ℚ) : ⌊(offset - 2) / 2⌋ = ⌊offset / 2⌋ - 1 := by
  have h1 : (offset - 2) / 2 = offset / 2 - 1 := by ring
  rw [h1]
  exact_mod_cast Int.floor_sub_int (offset / 2) 1

theorem floor_half_small (offset : ℚ) (h0 : 0 ≤ offset) (h2 : ¬0 ≤ offset - 2) :
    ⌊offset / 2⌋ = 0 := by
  rw [Int.floor_eq_zero_iff]
  constructor
  · positivity
  · linarith

/-- Closed form of the loop's final `v_phase_anti_hyst` (squared): for a
nonnegative starting offset it is `initial_phase ** 2` plus the remainder of
the offset after removing as many 2-steps as fit. -/
theorem antihystLoopLast_eq (initSq offset vSq : ℚ) :
    antihystLoopLast initSq offset vSq =
      if 0 ≤ offset then initSq + (offset - 2 * ⌊offset / 2⌋) else vSq := by
  induction offset, vSq using antihystLoopLast.induct initSq with
  | case1 offset vSq h ih =>
    rw [antihystLoopLast.eq_def, dif_pos h, ih, if_pos h]
    by_cases h2 : 0 ≤ offset - 2
    · rw [if_pos h2, floor_shift_two]
      push_cast
      ring
    · rw [if_neg h2, floor_half_small offset h h2]
      push_cast
      ring
  | case2 offset vSq h =>
    rw [antihystLoopLast.eq_def, dif_neg h, if_neg h]

/-- Closed form of the loop's write sequence (squared): the arithmetic
progression `initSq + offset, initSq + offset - 2, ...` down to the last
value that is still at least `initSq`. -/
theorem antihystLoopWrites_eq (initSq offset : ℚ) :
    antihystLoopWrites initSq offset =
      (List.range (if 0 ≤ offset then (⌊offset / 2⌋ + 1).toNat else 0)).map
        (fun k : ℕ => initSq + offset - 2 * (k : ℚ)) := by
  induction offset using antihystLoopWrites.induct initSq with
  | case1 offset h ih =>
    rw [antihystLoopWrites.eq_def, dif_pos h, ih, if_pos h]
    by_cases h2 : 0 ≤ offset - 2
    · rw [if_pos h2, floor_shift_two]
      have h6 : (0 : ℤ) ≤ ⌊offset / 2⌋ - 1 := by
        have h7 : (0 : ℚ) ≤ (offset - 2) / 2 := by linarith
        have h8 := Int.floor_nonneg.mpr h7
        rw [floor_shift_two] at h8
        omega
      have h5 : (⌊offset / 2⌋ + 1).toNat = (⌊offset / 2⌋ - 1 + 1).toNat + 1 := by omega
      rw [h5, List.range_succ_eq_map]
      simp only [List.map_cons, List.map_map, Nat.cast_zero]
      congr 1
      · ring
      · apply List.map_congr_left
        intro a ha
        simp only [Function.comp_apply, Nat.succ_eq_add_one]
        push_cast
        ring
    · rw [if_neg h2, floor_half_small offset h h2]
      norm_num [List.range_succ]
  | case2 offset h =>
    rw [antihystLoopWrites.eq_def, dif_neg h, if_neg h]
    norm_num

/-! ### C10: `Laser.query` on empty replies -/

/-- C10: if the transport returns an empty response line while prefix mode
is enabled, `Laser.query` raises an unhandled `IndexError` when checking the
response code of the empty reply; the empty-reply guard returns early (with
the empty reply) only when prefix mode is disabled; for non-empty replies
`query` returns the reply with its two-character response-code prefix
stripped. -/
theorem laserQuery_empty_reply_spec (pfx : Bool) (reply : String) :
    (reply = "" ∧ pfx = true → laserQuery pfx reply = .error .indexError) ∧
    (reply = "" ∧ pfx = false → laserQuery pfx reply = .ok "") ∧
    (reply ≠ "" → laserQuery pfx reply = .ok (pyDropChars 2 reply)) := by
  refine ⟨fun h => ?_, fun h => ?_, fun h => ?_⟩
  · simp [laserQuery, h.1, h.2]
  · simp [laserQuery, h.1, h.2]
  · simp [laserQuery, h]

/-- Witness for C10 at concrete inputs: the empty reply with prefix mode on
raises `IndexError`, with prefix mode off it is returned as is, and a
two-character response code is stripped from a non-empty reply. -/
theorem laserQuery_empty_reply_witness :
    laserQuery true "" = .error .indexError ∧
    laserQuery false "" = .ok "" ∧
    laserQuery true "0 1550.0" = .ok "1550.0" := by
  refine ⟨(laserQuery_empty_reply_spec true "").1 ⟨rfl, rfl⟩,
    (laserQuery_empty_reply_spec false "").2.1 ⟨rfl, rfl⟩, ?_⟩
  have h := (laserQuery_empty_reply_spec true "0 1550.0").2.2 (by decide)
  have h2 : pyDropChars 2 "0 1550.0" = "1550.0" := by decide
  rw [h, h2]

/-! ### C8: steady-mode wavelength setter bounds check -/

/-- C8: for a requested wavelength strictly below `min_wavelength` or
strictly above `max_wavelength`, the `SteadyMode.wavelength` setter raises a
`ValueError`, sends no command to the hardware, and (the raise preceding
the assignment `self._wl = value` and the auto-trigger) leaves the
remembered wavelength and all other laser state unchanged. -/
theorem steadySetWavelength_out_of_range (minWl maxWl : ℚ)
    (table : List CalibrationEntry) (method : WLMethod) (voltsSq times : List ℚ)
    (antiEnabled autoTrig : Bool) (curWl value : ℚ)
    (h : value < minWl ∨ value > maxWl) :
    steadySetWavelength minWl maxWl table method voltsSq times antiEnabled autoTrig
      curWl value = ([], .error .valueError) := by
  simp [steadySetWavelength, h]

/-- Witness for C8: requesting 1700 nm on a table calibrated for
1540-1550 nm is rejected without any hardware write. -/
theorem steadySetWavelength_out_of_range_witness :
    steadySetWavelength 1540 1550 [⟨1550, 1, 2, 3, 4, none, false, 0⟩] .cycler
      [35, 0] [10] true false 1550 1700 = ([], .error .valueError) :=
  steadySetWavelength_out_of_range 1540 1550 [⟨1550, 1, 2, 3, 4, none, false, 0⟩]
    .cycler [35, 0] [10] true false 1550 1700 (by norm_num)

/-! ### C9: mode switching with an unresolvable identifier -/

/-- C9 (divergence witness): setting the laser mode to the unresolvable
string `"foo"` does not fail: the string misses `mode_mappings`, so
`self._mode` keeps its old value (here the manual mode, not `None`), the
`None` check does not fire, and the setter silently re-applies the current
mode's defaults and returns — although the setter's own docstring promises
`ValueError: If the mode is not recognized`.  A string that does resolve
but names an uninitialized mode (here `"swep"` on a laser without sweep
mode) does raise. -/
theorem setModeString_unknown_mode_silently_ignored :
    setModeString ⟨true, false, some .manual⟩ "foo" = .ok .manual ∧
    lookupMapping (pyLower "foo") = none ∧
    setModeString ⟨true, false, some .manual⟩ "swep" = .error .notImplementedError :=
  ⟨rfl, by decide, rfl⟩

/-! ### C2: mode-index assignment of the two parsers -/

/-- C2 (divergence witness): on two consecutive rows whose hop flags are
both `"0"` — no mode hop anywhere — `_parse_rows` (calibration.py) keeps
the mode counter at 1 for both rows, as the claim states, while the loop in
`utils.read_calibration_file` assigns 1 then 2: it increments its counter
at every row (its `else` branch also increments), contradicting its own
comment "Logic for only incrementing the mode_index once per mode hop". -/
theorem modeIndex_parsers_divergence :
    (parseRows "COMET" [⟨10, 20, 30, 40, 1555, "0"⟩, ⟨11, 21, 31, 41, 1554, "0"⟩]).map
      (fun e => e.mode_index) = [some 1, some 1] ∧
    readCalibModeIndices ["0", "0"] = [1, 2] := by
  constructor
  · rfl
  · rfl

/-- Shared evaluation lemma: the ramp's write list (squared) on a nonempty
offset list, provided the `IndexError` guard does not fire. -/
theorem steadyAntihystWritesSq_ok (o : ℚ) (rest times : List ℚ) (v : ℚ)
    (h : ¬(0 ≤ o ∧ times = [])) :
    steadyAntihystWritesSq (o :: rest) times v =
      .ok ((List.range (if 0 ≤ o then (⌊o / 2⌋ + 1).toNat else 0)).map
            (fun k : ℕ => v ^ 2 + o - 2 * (k : ℚ)) ++
          [if 0 ≤ o then v ^ 2 + (o - 2 * ⌊o / 2⌋) else v ^ 2]) := by
  rw [steadyAntihystWritesSq, if_neg h, antihystLoopWrites_eq, antihystLoopLast_eq]

/-! ### C3: the anti-hysteresis ramp -/

/-- C3 (counterexample): with the configured offset list `[35.0, 0.0]`, hold
times `[10.0]` and target phase voltage `v = 0`, the claim predicts one
write per configured offset — `sqrt(v^2+35)` then `sqrt(v^2+0)` — with the
final written value equal to `v`.  The ramp actually ignores every offset
but the first, steps it down by 2 per iteration, and writes (squares shown)
`35, 33, ..., 1` and then `1` again: 19 writes, not 2, and the final write
is `sqrt(1) = 1`, not `v = 0`. -/
theorem steadyAntihyst_final_write_counterexample :
    steadyAntihystWritesSq [35, 0] [10] 0 =
      .ok [35, 33, 31, 29, 27, 25, 23, 21, 19, 17, 15, 13, 11, 9, 7, 5, 3, 1, 1] ∧
    ([35, 33, 31, 29, 27, 25, 23, 21, 19, 17, 15, 13, 11, 9, 7, 5, 3, 1, 1] :
        List ℚ).getLast? = some 1 ∧
    (1 : ℚ) ≠ 0 ^ 2 ∧
    ([35, 33, 31, 29, 27, 25, 23, 21, 19, 17, 15, 13, 11, 9, 7, 5, 3, 1, 1] :
        List ℚ).length ≠ ([35, 0] : List ℚ).length := by
  refine ⟨?_, by decide, by norm_num, by decide⟩
  have h1 : steadyAntihystWritesSq [35, 0] [10] 0 =
      .ok (antihystLoopWrites ((0 : ℚ) ^ 2) 35 ++ [antihystLoopLast ((0 : ℚ) ^ 2) 35 ((0 : ℚ) ^ 2)]) := by
    simp [steadyAntihystWritesSq]
  rw [h1, antihystLoopWrites_eq, antihystLoopLast_eq]
  norm_num
  have h3 : List.range (Int.toNat 18) =
      [0, 1, 2, 3, 4, 5, 6, 7, 8, 9, 10, 11, 12, 13, 14, 15, 16, 17] := rfl
  rw [h3]
  simp only [List.map_cons, List.map_nil, List.cons_append, List.nil_append]
  norm_num

/-- C3 (amended): given the target phase-section voltage `v`, the steady
mode ramp uses only the FIRST configured offset `o` (an `IndexError` when
the offset list is empty) and only the FIRST hold time (an `IndexError`
when the hold-time list is empty and the loop body runs): while the running
offset stays nonnegative it writes `sqrt(v^2 + offset)` — unclamped — and
steps the offset down by 2; after the loop it re-writes the final value of
the running variable.  Writes are recorded squared.  The final written
value equals `v` (squared: `v^2`) iff `o < 0` (loop never ran, the initial
value is re-written) or `o` is an even multiple of 2, i.e. `o = 2*⌊o/2⌋`
— not in general, and not for the shipped configuration `[35.0, 0.0]`. -/
theorem steadyAntihyst_characterization (voltsSq times : List ℚ) (v o : ℚ)
    (rest : List ℚ) (hv : voltsSq = o :: rest) (h : ¬(0 ≤ o ∧ times = [])) :
    steadyAntihystWritesSq voltsSq times v =
      .ok ((List.range (if 0 ≤ o then (⌊o / 2⌋ + 1).toNat else 0)).map
            (fun k : ℕ => v ^ 2 + o - 2 * (k : ℚ)) ++
          [if 0 ≤ o then v ^ 2 + (o - 2 * ⌊o / 2⌋) else v ^ 2]) ∧
    steadyAntihystWritesSq [] times v = .error .indexError ∧
    ((if 0 ≤ o then v ^ 2 + (o - 2 * ⌊o / 2⌋) else v ^ 2) = v ^ 2 ↔
      (¬0 ≤ o ∨ o = 2 * ⌊o / 2⌋)) := by
  refine ⟨?_, rfl, ?_⟩
  · subst hv
    exact steadyAntihystWritesSq_ok o rest times v h
  · by_cases h0 : 0 ≤ o
    · rw [if_pos h0]
      constructor
      · intro h1
        right
        linarith [add_left_cancel (a := v ^ 2) (b := o - 2 * (⌊o / 2⌋ : ℚ)) (c := 0)]
      · intro h1
        rcases h1 with h1 | h1
        · exact absurd h0 h1
        · rw [← h1]
          ring
    · rw [if_neg h0]
      simp [h0]

/-- Witness for C3's amended theorem at offsets `[34]`, hold times `[10]`,
target `v = 3`: the ramp writes squares `43, 41, ..., 9` and finally `9`,
and since 34 is an even nonnegative offset the final write equals the
target. -/
theorem steadyAntihyst_characterization_witness :
    (([34] : List ℚ) = (34 : ℚ) :: []) ∧ ¬((0 : ℚ) ≤ 34 ∧ ([10] : List ℚ) = []) ∧
    steadyAntihystWritesSq [34] [10] 3 =
      .ok ((List.range (if (0 : ℚ) ≤ 34 then (⌊(34 : ℚ) / 2⌋ + 1).toNat else 0)).map
            (fun k : ℕ => (3 : ℚ) ^ 2 + 34 - 2 * (k : ℚ)) ++
          [if (0 : ℚ) ≤ 34 then (3 : ℚ) ^ 2 + (34 - 2 * ⌊(34 : ℚ) / 2⌋) else (3 : ℚ) ^ 2]) ∧
    (if (0 : ℚ) ≤ 34 then (3 : ℚ) ^ 2 + (34 - 2 * ⌊(34 : ℚ) / 2⌋) else (3 : ℚ) ^ 2) = 3 ^ 2 :=
  ⟨rfl, by norm_num,
   (steadyAntihyst_characterization [34] [10] 3 34 [] rfl (by norm_num)).1,
   ((steadyAntihyst_characterization [34] [10] 3 34 [] rfl (by norm_num)).2.2).mpr
     (Or.inr (by norm_num))⟩

/-! ### C4: when the anti-hysteresis ramp runs -/

/-- C4 (counterexample): with the cycler-index strategy (the one every
non-COMET steady mode uses), a wavelength change between two entries whose
mode indices are EQUAL (both `none`, as for every ATLAS entry) still runs
the anti-hysteresis ramp whenever it is enabled: `_CyclerIndex.set_wl`
calls `_antihyst` unconditionally when `anti_hyst_enabled`, without any
mode-index comparison.  Here the ramp (first offset `-1 < 0`) consists of
the single re-write of the current entry's phase value. -/
theorem cyclerRamp_same_mode_counterexample :
    cyclerSetWl [⟨1550, 2, 0, 0, 0, none, false, 0⟩, ⟨1551, 5, 0, 0, 0, none, false, 1⟩]
        [-1] [1] true 1550 1551 =
      ([.drvCycLoad 1, .drvDSqrt 0 4], .ok true) ∧
    (⟨1550, 2, 0, 0, 0, none, false, 0⟩ : CalibrationEntry).mode_index =
      (⟨1551, 5, 0, 0, 0, none, false, 1⟩ : CalibrationEntry).mode_index := by
  refine ⟨?_, rfl⟩
  have h1 : tableLookup [⟨1550, 2, 0, 0, 0, none, false, 0⟩, ⟨1551, 5, 0, 0, 0, none, false, 1⟩]
      (1551 : ℚ) = some ⟨1551, 5, 0, 0, 0, none, false, 1⟩ := by
    simp [tableLookup]
  have h2 : tableLookup [⟨1550, 2, 0, 0, 0, none, false, 0⟩, ⟨1551, 5, 0, 0, 0, none, false, 1⟩]
      (1550 : ℚ) = some ⟨1550, 2, 0, 0, 0, none, false, 0⟩ := by
    norm_num [tableLookup]
  have h3 : steadyAntihystWritesSq [-1] [1] 2 = .ok [4] := by
    have h4 := steadyAntihystWritesSq_ok (-1) [] [1] 2 (by norm_num)
    rw [h4]
    norm_num
  rw [cyclerSetWl, h1, h2]
  simp [h3]

/-- C4 (amended): a steady-mode wavelength change runs the anti-hysteresis
ramp as follows, given that the target `value` and the remembered current
wavelength `curWl` are both table keys and the ramp itself completes
(outcome `.ok true` = ramp ran, `.ok false` = ramp skipped):
with the preload strategy (COMET) the ramp runs iff anti-hysteresis is
enabled AND the target entry's mode index differs from the current entry's;
with the cycler-index strategy (ATLAS) the ramp runs iff anti-hysteresis is
enabled — also between two wavelengths carrying the same (`None`) mode
index. -/
theorem setWl_ramp_characterization (table : List CalibrationEntry)
    (voltsSq times : List ℚ) (enabled : Bool) (curWl value : ℚ)
    (entry curEntry : CalibrationEntry) (ws : List ℚ)
    (hv : tableLookup table value = some entry)
    (hc : tableLookup table curWl = some curEntry)
    (hr : steadyAntihystWritesSq voltsSq times curEntry.phase_section = .ok ws) :
    ((preloadSetWl table voltsSq times enabled curWl value).2 = .ok true ↔
      enabled = true ∧ curEntry.mode_index ≠ entry.mode_index) ∧
    ((preloadSetWl table voltsSq times enabled curWl value).2 = .ok false ↔
      enabled = false ∨ curEntry.mode_index = entry.mode_index) ∧
    ((cyclerSetWl table voltsSq times enabled curWl value).2 = .ok true ↔
      enabled = true) ∧
    ((cyclerSetWl table voltsSq times enabled curWl value).2 = .ok false ↔
      enabled = false) := by
  rw [preloadSetWl, cyclerSetWl, hv, hc]
  by_cases hm : curEntry.mode_index = entry.mode_index
  · cases enabled <;> simp [hm, hr]
  · cases enabled <;> simp [hm, hr]

/-- Witness for C4's amended theorem on a two-entry COMET table with mode
indices 1 and 2 and on the same table driven by the cycler strategy: the
preload strategy ramps on the mode change, and the cycler strategy ramps
even though it is given entries with equal mode indices in the
counterexample above; here it ramps on the same differing-index table. -/
theorem setWl_ramp_characterization_witness :
    tableLookup [⟨1550, 2, 0, 0, 0, some 1, false, 0⟩, ⟨1551, 5, 0, 0, 0, some 2, false, 1⟩]
        (1551 : ℚ) = some ⟨1551, 5, 0, 0, 0, some 2, false, 1⟩ ∧
    tableLookup [⟨1550, 2, 0, 0, 0, some 1, false, 0⟩, ⟨1551, 5, 0, 0, 0, some 2, false, 1⟩]
        (1550 : ℚ) = some ⟨1550, 2, 0, 0, 0, some 1, false, 0⟩ ∧
    steadyAntihystWritesSq [-1] [1]
        (⟨1550, 2, 0, 0, 0, some 1, false, 0⟩ : CalibrationEntry).phase_section = .ok [4] ∧
    ((preloadSetWl [⟨1550, 2, 0, 0, 0, some 1, false, 0⟩, ⟨1551, 5, 0, 0, 0, some 2, false, 1⟩]
        [-1] [1] true 1550 1551).2 = .ok true ↔
      true = true ∧ (⟨1550, 2, 0, 0, 0, some 1, false, 0⟩ : CalibrationEntry).mode_index ≠
        (⟨1551, 5, 0, 0, 0, some 2, false, 1⟩ : CalibrationEntry).mode_index) := by
  have h1 : tableLookup [⟨1550, 2, 0, 0, 0, some 1, false, 0⟩, ⟨1551, 5, 0, 0, 0, some 2, false, 1⟩]
      (1551 : ℚ) = some ⟨1551, 5, 0, 0, 0, some 2, false, 1⟩ := by
    simp [tableLookup]
  have h2 : tableLookup [⟨1550, 2, 0, 0, 0, some 1, false, 0⟩, ⟨1551, 5, 0, 0, 0, some 2, false, 1⟩]
      (1550 : ℚ) = some ⟨1550, 2, 0, 0, 0, some 1, false, 0⟩ := by
    norm_num [tableLookup]
  have h3 : steadyAntihystWritesSq [-1] [1]
      (⟨1550, 2, 0, 0, 0, some 1, false, 0⟩ : CalibrationEntry).phase_section = .ok [4] := by
    have h4 := steadyAntihystWritesSq_ok (-1) [] [1] 2 (by norm_num)
    rw [show (⟨1550, 2, 0, 0, 0, some 1, false, 0⟩ : CalibrationEntry).phase_section =
      (2 : ℚ) from rfl, h4]
    norm_num
  exact ⟨h1, h2, h3,
    (setWl_ramp_characterization _ [-1] [1] true 1550 1551 _ _ [4] h1 h2 h3).1⟩

/-! ### Helper lemmas on the calibration model -/

theorem getLastD_map_wavelength (e : CalibrationEntry) (es : List CalibrationEntry) :
    (es.map (fun x => x.wavelength)).getLastD e.wavelength =
      ((e :: es).getLast (by simp)).wavelength := by
  induction es generalizing e with
  | nil => rfl
  | cons x xs ih =>
    rw [List.map_cons, List.getLastD_cons, ih x, List.getLast_cons (List.cons_ne_nil x xs)]

theorem parseRowsGo_length (model : String) (rows : List RawRow) :
    ∀ cyc mi ih, (parseRowsGo model rows cyc mi ih).length = rows.length := by
  induction rows with
  | nil => intro cyc mi ih; rfl
  | cons r rs ihr =>
    intro cyc mi ih
    rw [parseRowsGo]
    by_cases hm : model = "COMET"
    · rw [if_pos hm]
      simp only [List.length_cons, ihr]
    · rw [if_neg hm]
      simp only [List.length_cons, ihr]

/-! ### C5: constructor invariants -/

/-- C5 (counterexample): a parsed entry list in ascending wavelength order
— two well-formed rows, 1540 nm before 1550 nm — yields a `Calibration`
with `min_wl = 1550 > 1540 = max_wl`, because `__init__` takes `max_wl`
from the FIRST and `min_wl` from the LAST entry without comparing them.
The construction still succeeds and `len` matches the row count. -/
theorem mkCalibration_minmax_counterexample :
    (mkCalibration "ATLAS" [⟨1540, 1, 2, 3, 4, none, false, 0⟩,
        ⟨1550, 5, 6, 7, 8, none, false, 1⟩]).map
      (fun c => (c.min_wl, c.max_wl, c.entries.length)) = .ok (1550, 1540, 2) ∧
    ¬((1550 : ℚ) ≤ 1540) := by
  constructor
  · rfl
  · norm_num

/-- C5 (amended): constructing a `Calibration` from an empty entry list
raises `CalibrationError`; from any non-empty entry list it succeeds, keeps
the entries (so `len(calibration)` is their number, and the entry list
produced by `_parse_rows` has exactly one entry per data row), and sets
`max_wl` to the FIRST and `min_wl` to the LAST entry's wavelength — hence
`min_wl <= max_wl` holds iff the last entry's wavelength is at most the
first's, as in a descending-ordered calibration file, not unconditionally. -/
theorem mkCalibration_invariants (model tmodel : String) (e : CalibrationEntry)
    (es : List CalibrationEntry) (rows : List RawRow) (hne : rows ≠ []) :
    mkCalibration model [] = .error .calibrationError ∧
    (∃ c, mkCalibration model (e :: es) = .ok c ∧
      c.entries = e :: es ∧
      c.entries.length = (e :: es).length ∧
      c.max_wl = e.wavelength ∧
      c.min_wl = ((e :: es).getLast (by simp)).wavelength ∧
      (c.min_wl ≤ c.max_wl ↔
        ((e :: es).getLast (by simp)).wavelength ≤ e.wavelength)) ∧
    (parseRows tmodel rows).length = rows.length ∧
    parseRows tmodel rows ≠ [] := by
  refine ⟨rfl, ?_, parseRowsGo_length tmodel rows 0 1 false, ?_⟩
  · refine ⟨_, rfl, rfl, rfl, rfl, getLastD_map_wavelength e es, ?_⟩
    show (es.map (fun x => x.wavelength)).getLastD e.wavelength ≤ e.wavelength ↔ _
    rw [getLastD_map_wavelength e es]
  · intro hcon
    have h1 := parseRowsGo_length tmodel rows 0 1 false
    rw [show parseRows tmodel rows = parseRowsGo tmodel rows 0 1 false from rfl] at hcon
    rw [hcon] at h1
    simp at h1
    exact hne (List.eq_nil_of_length_eq_zero h1.symm)

/-- Witness for C5's amended theorem on a two-entry descending table and a
one-row parsed file. -/
theorem mkCalibration_invariants_witness :
    ([⟨1, 2, 3, 4, 1550, "0"⟩] : List RawRow) ≠ [] ∧
    (mkCalibration "ATLAS" [] = .error .calibrationError ∧
     (∃ c, mkCalibration "ATLAS" [⟨1550, 1, 2, 3, 4, none, false, 0⟩,
          ⟨1540, 5, 6, 7, 8, none, false, 1⟩] = .ok c ∧
        c.entries = [⟨1550, 1, 2, 3, 4, none, false, 0⟩,
          ⟨1540, 5, 6, 7, 8, none, false, 1⟩] ∧
        c.entries.length = ([⟨1550, 1, 2, 3, 4, none, false, 0⟩,
          ⟨1540, 5, 6, 7, 8, none, false, 1⟩] : List CalibrationEntry).length ∧
        c.max_wl = (⟨1550, 1, 2, 3, 4, none, false, 0⟩ : CalibrationEntry).wavelength ∧
        c.min_wl = (([⟨1550, 1, 2, 3, 4, none, false, 0⟩,
          ⟨1540, 5, 6, 7, 8, none, false, 1⟩] : List CalibrationEntry).getLast
            (by simp)).wavelength ∧
        (c.min_wl ≤ c.max_wl ↔
          (([⟨1550, 1, 2, 3, 4, none, false, 0⟩,
            ⟨1540, 5, 6, 7, 8, none, false, 1⟩] : List CalibrationEntry).getLast
              (by simp)).wavelength ≤
            (⟨1550, 1, 2, 3, 4, none, false, 0⟩ : CalibrationEntry).wavelength)) ∧
     (parseRows "COMET" [⟨1, 2, 3, 4, 1550, "0"⟩]).length =
       ([⟨1, 2, 3, 4, 1550, "0"⟩] : List RawRow).length ∧
     parseRows "COMET" [⟨1, 2, 3, 4, 1550, "0"⟩] ≠ []) :=
  ⟨by decide,
   mkCalibration_invariants "ATLAS" "COMET" ⟨1550, 1, 2, 3, 4, none, false, 0⟩
     [⟨1540, 5, 6, 7, 8, none, false, 1⟩] [⟨1, 2, 3, 4, 1550, "0"⟩] (by decide)⟩

/-! ### Helper lemmas on the direct-access dict -/

theorem directAccessLookup_eq_getLast (l : List CalibrationEntry) (w : ℚ) :
    directAccessLookup l w =
      (l.filter (fun e => decide (e.mode_hop_flag = false ∧ e.wavelength = w))).getLast? := by
  induction l with
  | nil => rfl
  | cons e es ih =>
    rw [directAccessLookup, ih]
    by_cases hp : e.mode_hop_flag = false ∧ e.wavelength = w
    · rw [List.filter_cons_of_pos (by simpa using hp)]
      cases hfe : es.filter (fun e => decide (e.mode_hop_flag = false ∧ e.wavelength = w)) with
      | nil => simp [hp]
      | cons b bs =>
        rw [List.getLast?_cons_cons]
        cases hbl : (b :: bs).getLast? with
        | none => exact absurd hbl (by simp)
        | some r => rfl
    · rw [List.filter_cons_of_neg (by simpa using hp)]
      cases hfe : (es.filter (fun e => decide (e.mode_hop_flag = false ∧ e.wavelength = w))).getLast? with
      | none => simp [hfe, hp]
      | some r => simp [hfe]

theorem directAccessLookup_some (l : List CalibrationEntry) (w : ℚ)
    (e : CalibrationEntry) (h : directAccessLookup l w = some e) :
    e ∈ l ∧ e.mode_hop_flag = false ∧ e.wavelength = w := by
  rw [directAccessLookup_eq_getLast] at h
  have h2 : e ∈ (l.filter (fun e => decide (e.mode_hop_flag = false ∧ e.wavelength = w))).getLast? := h ▸ rfl
  obtain ⟨hn, he⟩ := List.mem_getLast?_eq_getLast h2
  have h3 : e ∈ l.filter (fun e => decide (e.mode_hop_flag = false ∧ e.wavelength = w)) := by
    rw [he]
    exact List.getLast_mem hn
  have h4 := List.mem_filter.mp h3
  refine ⟨h4.1, ?_⟩
  have h5 := h4.2
  simpa using h5

theorem directAccessLookup_none_iff (l : List CalibrationEntry) (w : ℚ) :
    directAccessLookup l w = none ↔
      ∀ e ∈ l, e.mode_hop_flag = false → e.wavelength ≠ w := by
  rw [directAccessLookup_eq_getLast, List.getLast?_eq_none_iff, List.filter_eq_nil_iff]
  constructor
  · intro h e he hm
    have h2 := h e he
    simp only [decide_eq_true_eq] at h2
    intro hw
    exact h2 ⟨hm, hw⟩
  · intro h e he
    simp only [decide_eq_true_eq]
    intro hc
    exact h e he hc.1 hc.2

theorem mem_directAccessKeys (l : List CalibrationEntry) (k : ℚ) :
    k ∈ directAccessKeys l ↔ ∃ e ∈ l, e.mode_hop_flag = false ∧ e.wavelength = k := by
  induction l with
  | nil => simp [directAccessKeys]
  | cons e es ih =>
    rw [directAccessKeys]
    by_cases hp : e.mode_hop_flag = false
    · rw [if_pos hp]
      constructor
      · intro hk
        rcases List.mem_cons.mp hk with hk1 | hk2
        · exact ⟨e, List.mem_cons_self e es, hp, hk1.symm⟩
        · have h3 := (List.mem_filter.mp hk2).1
          obtain ⟨x, hx, hxm, hxw⟩ := ih.mp h3
          exact ⟨x, List.mem_cons_of_mem e hx, hxm, hxw⟩
      · rintro ⟨x, hx, hxm, hxw⟩
        by_cases hke : k = e.wavelength
        · exact hke ▸ List.mem_cons_self e.wavelength _
        · apply List.mem_cons_of_mem
          rcases List.mem_cons.mp hx with hx1 | hx2
          · exact absurd (hx1 ▸ hxw : e.wavelength = k).symm hke
          · exact List.mem_filter.mpr ⟨ih.mpr ⟨x, hx2, hxm, hxw⟩, by simpa using hke⟩
    · rw [if_neg hp]
      rw [ih]
      constructor
      · rintro ⟨x, hx, hxm, hxw⟩
        exact ⟨x, List.mem_cons_of_mem e hx, hxm, hxw⟩
      · rintro ⟨x, hx, hxm, hxw⟩
        rcases List.mem_cons.mp hx with hx1 | hx2
        · exact absurd (hx1 ▸ hxm) hp
        · exact ⟨x, hx2, hxm, hxw⟩

theorem directAccessLookup_none_iff_keys (l : List CalibrationEntry) (w : ℚ) :
    directAccessLookup l w = none ↔ w ∉ directAccessKeys l := by
  rw [directAccessLookup_none_iff, mem_directAccessKeys]
  constructor
  · intro h hc
    obtain ⟨e, he, hm, hw⟩ := hc
    exact h e he hm hw
  · intro h e he hm hw
    exact h ⟨e, he, hm, hw⟩

theorem pyMinByGo_mem (key : ℚ → ℚ) (l : List ℚ) :
    ∀ m, pyMinByGo key m l = m ∨ pyMinByGo key m l ∈ l := by
  induction l with
  | nil => intro m; exact Or.inl rfl
  | cons y ys ih =>
    intro m
    rw [pyMinByGo]
    rcases ih (if key y < key m then y else m) with h | h
    · rw [h]
      by_cases hc : key y < key m
      · rw [if_pos hc]
        exact Or.inr (List.mem_cons_self y ys)
      · rw [if_neg hc]
        exact Or.inl rfl
    · exact Or.inr (List.mem_cons_of_mem y h)

theorem pyMinByGo_le (key : ℚ → ℚ) (l : List ℚ) :
    ∀ m, key (pyMinByGo key m l) ≤ key m ∧ ∀ x ∈ l, key (pyMinByGo key m l) ≤ key x := by
  induction l with
  | nil => intro m; exact ⟨le_refl _, by intro x hx; exact absurd hx (List.not_mem_nil x)⟩
  | cons y ys ih =>
    intro m
    rw [pyMinByGo]
    obtain ⟨ih1, ih2⟩ := ih (if key y < key m then y else m)
    have hm : key (if key y < key m then y else m) ≤ key m := by
      by_cases hc : key y < key m
      · rw [if_pos hc]; exact le_of_lt hc
      · rw [if_neg hc]
    have hy : key (if key y < key m then y else m) ≤ key y := by
      by_cases hc : key y < key m
      · rw [if_pos hc]
      · rw [if_neg hc]; exact le_of_not_lt hc
    refine ⟨le_trans ih1 hm, ?_⟩
    intro x hx
    rcases List.mem_cons.mp hx with hx1 | hx2
    · rw [hx1]
      exact le_trans ih1 hy
    · exact ih2 x hx2

theorem mkCalibration_ok_fields (model : String) (entries : List CalibrationEntry)
    (c : Calibration) (hc : mkCalibration model entries = .ok c) :
    c.entries = entries := by
  cases entries with
  | nil => exact absurd hc (by simp [mkCalibration])
  | cons e es =>
    rw [mkCalibration] at hc
    cases hc
    rfl

theorem getItem_exact (c : Calibration) (w : ℚ) (r : CalibrationEntry)
    (h : directAccessLookup c.entries w = some r) : c.getItem w = .ok r := by
  rw [Calibration.getItem, h]

/-! ### C6: round-trip lookup of a non-hop entry -/

/-- C6 (counterexample): real calibration tables may contain two non-hop
rows with the SAME wavelength (the repository's own test data does); the
direct-access dict then keeps only the later row, so looking up the earlier
entry's wavelength returns the later entry, not the entry itself.  Here
both entries have wavelength 1550 and differ in `phase_section` and
`cycler_index`; the lookup returns the second. -/
theorem roundTrip_duplicate_counterexample :
    (mkCalibration "ATLAS" [⟨1550, 1, 0, 0, 0, none, false, 0⟩,
        ⟨1550, 2, 0, 0, 0, none, false, 1⟩]).map
      (fun c => c.getItem 1550) = .ok (.ok ⟨1550, 2, 0, 0, 0, none, false, 1⟩) ∧
    (⟨1550, 1, 0, 0, 0, none, false, 0⟩ : CalibrationEntry) ∈
      ([⟨1550, 1, 0, 0, 0, none, false, 0⟩, ⟨1550, 2, 0, 0, 0, none, false, 1⟩] :
        List CalibrationEntry) ∧
    (⟨1550, 1, 0, 0, 0, none, false, 0⟩ : CalibrationEntry).mode_hop_flag = false ∧
    (⟨1550, 2, 0, 0, 0, none, false, 1⟩ : CalibrationEntry) ≠
      (⟨1550, 1, 0, 0, 0, none, false, 0⟩ : CalibrationEntry) := by
  refine ⟨rfl, by decide, rfl, by decide⟩

/-- C6 (amended): for every non-hop entry `e` of the table,
`calibration[e.wavelength]` succeeds and returns the LAST non-hop entry
carrying `e.wavelength` (the dict comprehension lets later duplicates
overwrite earlier ones); that entry is `e` itself — the claimed round trip
— exactly when no other non-hop entry shares `e`'s wavelength later in the
list, in particular whenever `e` is the only non-hop entry with its
wavelength. -/
theorem roundTrip_last_nonhop (model : String) (entries : List CalibrationEntry)
    (c : Calibration) (hc : mkCalibration model entries = .ok c)
    (e : CalibrationEntry) (he : e ∈ entries) (hhop : e.mode_hop_flag = false) :
    (∃ r, c.getItem e.wavelength = .ok r ∧
       directAccessLookup entries e.wavelength = some r ∧
       (entries.filter (fun x =>
          decide (x.mode_hop_flag = false ∧ x.wavelength = e.wavelength))).getLast? = some r ∧
       r ∈ entries ∧ r.mode_hop_flag = false ∧ r.wavelength = e.wavelength) ∧
    ((∀ x ∈ entries, x.mode_hop_flag = false → x.wavelength = e.wavelength → x = e) →
      c.getItem e.wavelength = .ok e) := by
  have hent : c.entries = entries := mkCalibration_ok_fields model entries c hc
  cases hd : directAccessLookup entries e.wavelength with
  | none =>
    exact absurd rfl ((directAccessLookup_none_iff entries e.wavelength).mp hd e he hhop)
  | some r =>
    obtain ⟨hrmem, hrhop, hrwl⟩ := directAccessLookup_some entries e.wavelength r hd
    have hget : c.getItem e.wavelength = .ok r := getItem_exact c e.wavelength r (by rw [hent]; exact hd)
    refine ⟨⟨r, hget, hd ▸ rfl, ?_, hrmem, hrhop, hrwl⟩, ?_⟩
    · rw [← directAccessLookup_eq_getLast]
      exact hd
    · intro huniq
      rw [hget, huniq r hrmem hrhop hrwl]

/-- Witness for C6's amended theorem: on a single-entry table the round
trip holds on the nose. -/
theorem roundTrip_last_nonhop_witness :
    mkCalibration "ATLAS" [⟨1550, 1, 2, 3, 4, none, false, 0⟩] =
      .ok ⟨"ATLAS", [⟨1550, 1, 2, 3, 4, none, false, 0⟩], 1550, 1550, none⟩ ∧
    (⟨1550, 1, 2, 3, 4, none, false, 0⟩ : CalibrationEntry) ∈
      ([⟨1550, 1, 2, 3, 4, none, false, 0⟩] : List CalibrationEntry) ∧
    (⟨1550, 1, 2, 3, 4, none, false, 0⟩ : CalibrationEntry).mode_hop_flag = false ∧
    (Calibration.getItem ⟨"ATLAS", [⟨1550, 1, 2, 3, 4, none, false, 0⟩], 1550, 1550, none⟩
        (⟨1550, 1, 2, 3, 4, none, false, 0⟩ : CalibrationEntry).wavelength =
      .ok ⟨1550, 1, 2, 3, 4, none, false, 0⟩) := by
  have hmk : mkCalibration "ATLAS" [⟨1550, 1, 2, 3, 4, none, false, 0⟩] =
      .ok ⟨"ATLAS", [⟨1550, 1, 2, 3, 4, none, false, 0⟩], 1550, 1550, none⟩ := rfl
  refine ⟨hmk, by decide, rfl, ?_⟩
  exact (roundTrip_last_nonhop "ATLAS" [⟨1550, 1, 2, 3, 4, none, false, 0⟩]
      ⟨"ATLAS", [⟨1550, 1, 2, 3, 4, none, false, 0⟩], 1550, 1550, none⟩ hmk
      ⟨1550, 1, 2, 3, 4, none, false, 0⟩ (by decide) rfl).2
    (by decide)

/-! ### C1: the lookup contract of `Calibration.__getitem__` -/

/-- C1 (counterexample): the exact-match branch precedes the range check,
so when the entry list is not sorted (here wavelengths 1550, 1560, 1540 in
file order, giving `min_wl = 1540`, `max_wl = 1550`), looking up 1560 —
outside `[min_wl, max_wl]` — returns its entry instead of raising
`KeyError`, contradicting the claim's outside-the-range clause. -/
theorem getItem_outside_range_counterexample :
    (mkCalibration "ATLAS" [⟨1550, 1, 0, 0, 0, none, false, 0⟩,
        ⟨1560, 2, 0, 0, 0, none, false, 1⟩, ⟨1540, 3, 0, 0, 0, none, false, 2⟩]).map
      (fun c => (c.getItem 1560, c.min_wl, c.max_wl)) =
      .ok (.ok ⟨1560, 2, 0, 0, 0, none, false, 1⟩, 1540, 1550) ∧
    ¬((1540 : ℚ) ≤ 1560 ∧ (1560 : ℚ) ≤ 1550) := by
  constructor
  · rfl
  · norm_num

/-- C1 (amended): for a calibration built from a non-empty entry list with
at least one non-mode-hop entry: (1) for `w` within `[min_wl, max_wl]`,
`calibration[w]` returns a non-mode-hop entry of the table whose wavelength
has minimal absolute distance to `w` among all non-mode-hop entries, and it
is the exact (dict) match when one exists; (2) for `w` outside the range,
`calibration[w]` raises `KeyError` — provided `w` is not an exact non-hop
key of the table, an exception the original claim misses (it can only occur
when the entry list is not sorted, since `min_wl`/`max_wl` are read from
the last/first entry rather than computed). -/
theorem getItem_lookup_spec (model : String) (entries : List CalibrationEntry)
    (c : Calibration) (hc : mkCalibration model entries = .ok c) (w : ℚ)
    (hnh : ∃ x ∈ entries, x.mode_hop_flag = false) :
    (c.min_wl ≤ w ∧ w ≤ c.max_wl →
      ∃ r, c.getItem w = .ok r ∧ r ∈ entries ∧ r.mode_hop_flag = false ∧
        (∀ x ∈ entries, x.mode_hop_flag = false →
          |r.wavelength - w| ≤ |x.wavelength - w|) ∧
        (∀ x, directAccessLookup entries w = some x → r = x)) ∧
    (¬(c.min_wl ≤ w ∧ w ≤ c.max_wl) → directAccessLookup entries w = none →
      c.getItem w = .error .keyError) := by
  have hent : c.entries = entries := mkCalibration_ok_fields model entries c hc
  constructor
  · intro hin
    cases hd : directAccessLookup entries w with
    | some r =>
      obtain ⟨hrmem, hrhop, hrwl⟩ := directAccessLookup_some entries w r hd
      refine ⟨r, getItem_exact c w r (by rw [hent]; exact hd), hrmem, hrhop, ?_, ?_⟩
      · intro x hx hxh
        rw [hrwl, sub_self, abs_zero]
        exact abs_nonneg _
      · intro x hxd
        exact Option.some.inj hxd
    | none =>
      obtain ⟨x0, hx0, hx0h⟩ := hnh
      have hk0 : x0.wavelength ∈ directAccessKeys entries :=
        (mem_directAccessKeys entries x0.wavelength).mpr ⟨x0, hx0, hx0h, rfl⟩
      cases hkeys : directAccessKeys entries with
      | nil => rw [hkeys] at hk0; exact absurd hk0 (List.not_mem_nil _)
      | cons k0 ks =>
        have hkmem : pyMinByGo (fun x => |x - w|) k0 ks ∈ directAccessKeys entries := by
          rw [hkeys]
          rcases pyMinByGo_mem (fun x => |x - w|) ks k0 with h1 | h1
          · rw [h1]; exact List.mem_cons_self k0 ks
          · exact List.mem_cons_of_mem k0 h1
        have hkmin : ∀ y ∈ directAccessKeys entries,
            |pyMinByGo (fun x => |x - w|) k0 ks - w| ≤ |y - w| := by
          intro y hy
          rw [hkeys] at hy
          obtain ⟨hle1, hle2⟩ := pyMinByGo_le (fun x => |x - w|) ks k0
          rcases List.mem_cons.mp hy with hy1 | hy2
          · rw [hy1]; exact hle1
          · exact hle2 y hy2
        cases hdk : directAccessLookup entries (pyMinByGo (fun x => |x - w|) k0 ks) with
        | none =>
          exact absurd hkmem ((directAccessLookup_none_iff_keys entries _).mp hdk)
        | some r =>
          obtain ⟨hrmem, hrhop, hrwl⟩ := directAccessLookup_some entries _ r hdk
          have hcw : c.containsWl w := ⟨hin.1, hin.2⟩
          refine ⟨r, ?_, hrmem, hrhop, ?_, ?_⟩
          · simp only [Calibration.getItem, hent, hd, hcw, if_true, pyMinBy, hkeys, hdk]
          · intro x hx hxh
            have hxk : x.wavelength ∈ directAccessKeys entries :=
              (mem_directAccessKeys entries x.wavelength).mpr ⟨x, hx, hxh, rfl⟩
            rw [hrwl]
            exact hkmin x.wavelength hxk
          · intro x hxd
            exact absurd hxd (by simp)
  · intro hout hd
    have hncw : ¬c.containsWl w := fun hcon => hout ⟨hcon.1, hcon.2⟩
    simp only [Calibration.getItem, hent, hd, if_neg hncw]

/-- Witness for C1's amended theorem on a one-entry table at the calibrated
wavelength. -/
theorem getItem_lookup_spec_witness :
    mkCalibration "ATLAS" [⟨1550, 1, 2, 3, 4, none, false, 0⟩] =
      .ok ⟨"ATLAS", [⟨1550, 1, 2, 3, 4, none, false, 0⟩], 1550, 1550, none⟩ ∧
    (∃ x ∈ ([⟨1550, 1, 2, 3, 4, none, false, 0⟩] : List CalibrationEntry),
      x.mode_hop_flag = false) ∧
    (((Calibration.mk "ATLAS" [⟨1550, 1, 2, 3, 4, none, false, 0⟩] 1550 1550 none).min_wl ≤ 1550 ∧
        (1550 : ℚ) ≤ (Calibration.mk "ATLAS" [⟨1550, 1, 2, 3, 4, none, false, 0⟩] 1550 1550 none).max_wl →
      ∃ r, (Calibration.mk "ATLAS" [⟨1550, 1, 2, 3, 4, none, false, 0⟩] 1550 1550 none).getItem 1550 = .ok r ∧
        r ∈ [⟨1550, 1, 2, 3, 4, none, false, 0⟩] ∧ r.mode_hop_flag = false ∧
        (∀ x ∈ ([⟨1550, 1, 2, 3, 4, none, false, 0⟩] : List CalibrationEntry),
          x.mode_hop_flag = false → |r.wavelength - 1550| ≤ |x.wavelength - 1550|) ∧
        (∀ x, directAccessLookup [⟨1550, 1, 2, 3, 4, none, false, 0⟩] 1550 = some x → r = x)) ∧
     (¬((Calibration.mk "ATLAS" [⟨1550, 1, 2, 3, 4, none, false, 0⟩] 1550 1550 none).min_wl ≤ 1550 ∧
         (1550 : ℚ) ≤ (Calibration.mk "ATLAS" [⟨1550, 1, 2, 3, 4, none, false, 0⟩] 1550 1550 none).max_wl) →
       directAccessLookup [⟨1550, 1, 2, 3, 4, none, false, 0⟩] 1550 = none →
       (Calibration.mk "ATLAS" [⟨1550, 1, 2, 3, 4, none, false, 0⟩] 1550 1550 none).getItem 1550 =
         .error .keyError)) :=
  ⟨rfl, by decide,
   getItem_lookup_spec "ATLAS" [⟨1550, 1, 2, 3, 4, none, false, 0⟩]
     (Calibration.mk "ATLAS" [⟨1550, 1, 2, 3, 4, none, false, 0⟩] 1550 1550 none)
     rfl 1550 (by decide)⟩

/-! ### Helper lemmas for contiguous occurrences -/

theorem contigOcc_tail (y x : ℚ) (l : List ℚ) (h : ContigOcc (y :: l) x) :
    ContigOcc l x := by
  intro i j k hij hjk hi hk
  have h2 := h (i + 1) (j + 1) (k + 1) (Nat.succ_le_succ hij) (Nat.succ_le_succ hjk)
    (by rw [List.getElem?_cons_succ]; exact hi)
    (by rw [List.getElem?_cons_succ]; exact hk)
  rwa [List.getElem?_cons_succ] at h2

theorem contigOcc_drop_dup (x : ℚ) (zs : List ℚ) (h : ContigOcc (x :: x :: zs) x) :
    ContigOcc (x :: zs) x := by
  intro i j k hij hjk hi hk
  cases j with
  | zero => simp
  | succ j1 =>
    cases k with
    | zero => exact absurd hjk (by omega)
    | succ k1 =>
      have hk2 : (x :: x :: zs)[k1 + 2]? = some x := by
        rw [List.getElem?_cons_succ, List.getElem?_cons_succ]
        rw [List.getElem?_cons_succ] at hk
        exact hk
      have hi2 : ∃ i2, i2 ≤ j1 + 2 ∧ (x :: x :: zs)[i2]? = some x := by
        cases i with
        | zero => exact ⟨0, by omega, by simp⟩
        | succ i1 =>
          refine ⟨i1 + 2, by omega, ?_⟩
          rw [List.getElem?_cons_succ, List.getElem?_cons_succ]
          rw [List.getElem?_cons_succ] at hi
          exact hi
      obtain ⟨i2, hi2le, hi2⟩ := hi2
      have h3 := h i2 (j1 + 2) (k1 + 2) hi2le (by omega) hi2 hk2
      rw [List.getElem?_cons_succ, List.getElem?_cons_succ] at h3
      rw [List.getElem?_cons_succ]
      exact h3

theorem contigOcc_head_prefix (x : ℚ) (l : List ℚ) (hc : ContigOcc (x :: l) x) :
    ∃ c l2, x :: l = List.replicate (c + 1) x ++ l2 ∧ x ∉ l2 := by
  induction l with
  | nil => exact ⟨0, [], by simp, by simp⟩
  | cons z zs ih =>
    by_cases hz : z = x
    · subst hz
      obtain ⟨c, l2, heq, hn⟩ := ih (contigOcc_drop_dup z zs hc)
      refine ⟨c + 1, l2, ?_, hn⟩
      rw [List.replicate_succ, List.cons_append, ← heq]
    · refine ⟨0, z :: zs, by simp, ?_⟩
      intro hmem
      rcases List.mem_cons.mp hmem with h1 | h1
      · exact hz h1.symm
      · obtain ⟨m, hm⟩ := List.mem_iff_getElem?.mp h1
        have h2 := hc 0 1 (m + 2) (by omega) (by omega) (by simp)
          (by rw [List.getElem?_cons_succ, List.getElem?_cons_succ]; exact hm)
        rw [List.getElem?_cons_succ] at h2
        simp only [List.getElem?_cons_zero, Option.some.injEq] at h2
        exact hz h2

theorem contigOcc_decomp (l : List ℚ) (x : ℚ) (hmem : x ∈ l) (hc : ContigOcc l x) :
    ∃ l1 c l2, l = l1 ++ List.replicate (c + 1) x ++ l2 ∧ x ∉ l1 ∧ x ∉ l2 := by
  induction l with
  | nil => exact absurd hmem (List.not_mem_nil x)
  | cons y ys ih =>
    by_cases hy : y = x
    · subst hy
      obtain ⟨c, l2, heq, hn⟩ := contigOcc_head_prefix y ys hc
      exact ⟨[], c, l2, by simpa using heq, by simp, hn⟩
    · have hmem2 : x ∈ ys := by
        rcases List.mem_cons.mp hmem with h1 | h1
        · exact absurd h1.symm hy
        · exact h1
      obtain ⟨l1, c, l2, heq, h1, h2⟩ := ih hmem2 (contigOcc_tail y x ys hc)
      refine ⟨y :: l1, c, l2, ?_, ?_, h2⟩
      · rw [List.cons_append, List.cons_append, ← heq]
      · intro hmem3
        rcases List.mem_cons.mp hmem3 with h3 | h3
        · exact hy h3.symm
        · exact h1 h3

theorem pyIndex_append_first (l1 : List ℚ) (x : ℚ) (h : x ∉ l1) (rest : List ℚ) :
    pyIndex (l1 ++ x :: rest) x = l1.length := by
  induction l1 with
  | nil => simp [pyIndex, List.findIdx_cons]
  | cons a l1 ih =>
    have ha : a ≠ x := fun he => h (he ▸ List.mem_cons_self a l1)
    have h2 : x ∉ l1 := fun hm => h (List.mem_cons_of_mem a hm)
    rw [List.cons_append, pyIndex, List.findIdx_cons, decide_eq_false ha, Bool.cond_false]
    rw [show List.findIdx (fun y => decide (y = x)) (l1 ++ x :: rest) =
      pyIndex (l1 ++ x :: rest) x from rfl, ih h2, List.length_cons]

/-- When the occurrences of `x` in `l` are contiguous, the index
`first occurrence + count - 1` computed by `set_bounds` is exactly the last
occurrence of `x`: it holds `x`, and no later index does. -/
theorem firstIdx_count_last (l : List ℚ) (x : ℚ) (hmem : x ∈ l) (hc : ContigOcc l x) :
    l[pyIndex l x + l.count x - 1]? = some x ∧
    ∀ j, pyIndex l x + l.count x - 1 < j → l[j]? ≠ some x := by
  obtain ⟨l1, c, l2, heq, h1, h2⟩ := contigOcc_decomp l x hmem hc
  subst heq
  have hrep : List.replicate (c + 1) x = x :: List.replicate c x := List.replicate_succ x c
  have hidx : pyIndex (l1 ++ List.replicate (c + 1) x ++ l2) x = l1.length := by
    rw [List.append_assoc, hrep, List.cons_append]
    exact pyIndex_append_first l1 x h1 (List.replicate c x ++ l2)
  have hcnt : (l1 ++ List.replicate (c + 1) x ++ l2).count x = c + 1 := by
    rw [List.count_append, List.count_append, List.count_replicate,
      List.count_eq_zero.mpr h1, List.count_eq_zero.mpr h2]
    simp
  rw [hidx, hcnt]
  have hix : l1.length + (c + 1) - 1 = l1.length + c := by omega
  rw [hix]
  constructor
  · rw [List.append_assoc, List.getElem?_append_right (by omega)]
    rw [List.getElem?_append]
    rw [if_pos (by rw [List.length_replicate]; omega)]
    rw [List.getElem?_replicate, if_pos (by omega)]
  · intro j hj he
    rw [List.append_assoc, List.getElem?_append_right (by omega)] at he
    rw [List.getElem?_append] at he
    rw [if_neg (by rw [List.length_replicate]; omega)] at he
    have hx2 : x ∈ l2 := List.mem_iff_getElem?.mpr ⟨_, he⟩
    exact h2 hx2

theorem pyMaxGo_ge (l : List ℚ) :
    ∀ m, m ≤ pyMaxGo m l ∧ ∀ x ∈ l, x ≤ pyMaxGo m l := by
  induction l with
  | nil => intro m; exact ⟨le_refl _, by intro x hx; exact absurd hx (List.not_mem_nil x)⟩
  | cons y ys ih =>
    intro m
    rw [pyMaxGo]
    obtain ⟨ih1, ih2⟩ := ih (if m < y then y else m)
    have hm : m ≤ (if m < y then y else m) := by
      by_cases hc : m < y
      · rw [if_pos hc]; exact le_of_lt hc
      · rw [if_neg hc]
    have hy : y ≤ (if m < y then y else m) := by
      by_cases hc : m < y
      · rw [if_pos hc]
      · rw [if_neg hc]; exact le_of_not_lt hc
    refine ⟨le_trans hm ih1, ?_⟩
    intro x hx
    rcases List.mem_cons.mp hx with hx1 | hx2
    · rw [hx1]
      exact le_trans hy ih1
    · exact ih2 x hx2

theorem pyIndex_first (l : List ℚ) (x : ℚ) (hmem : x ∈ l) :
    l[pyIndex l x]? = some x ∧ ∀ j < pyIndex l x, l[j]? ≠ some x := by
  induction l with
  | nil => exact absurd hmem (List.not_mem_nil x)
  | cons a l ih =>
    by_cases ha : a = x
    · subst ha
      rw [pyIndex, List.findIdx_cons, decide_eq_true rfl, Bool.cond_true]
      exact ⟨by simp, by intro j hj; exact absurd hj (Nat.not_lt_zero j)⟩
    · have hmem2 : x ∈ l := by
        rcases List.mem_cons.mp hmem with h1 | h1
        · exact absurd h1.symm ha
        · exact h1
      obtain ⟨ih1, ih2⟩ := ih hmem2
      rw [pyIndex, List.findIdx_cons, decide_eq_false ha, Bool.cond_false]
      constructor
      · rw [List.getElem?_cons_succ]
        exact ih1
      · intro j hj
        cases j with
        | zero =>
          rw [List.getElem?_cons_zero]
          exact fun hcon => ha (Option.some.inj hcon)
        | succ j1 =>
          rw [List.getElem?_cons_succ]
          have hj2 : j1 < pyIndex l x := by
            rw [pyIndex]
            omega
          exact ih2 j1 hj2

theorem rejectCond_iff (mn mx s e : ℚ) :
    (e < mn ∨ mx < s ∨ s ≤ e) ↔
      (s ≤ e ∨ ¬(mn ≤ s ∧ s ≤ mx) ∨ ¬(mn ≤ e ∧ e ≤ mx)) := by
  constructor
  · rintro (h | h | h)
    · exact Or.inr (Or.inr (fun hc => absurd hc.1 (not_le.mpr h)))
    · exact Or.inr (Or.inl (fun hc => absurd hc.2 (not_le.mpr h)))
    · exact Or.inl h
  · rintro (h | h | h)
    · exact Or.inr (Or.inr h)
    · by_cases hse : s ≤ e
      · exact Or.inr (Or.inr hse)
      · push_neg at hse
        rcases lt_or_le s mn with h1 | h1
        · exact Or.inl (lt_trans hse h1)
        · rcases lt_or_le mx s with h2 | h2
          · exact Or.inr (Or.inl h2)
          · exact absurd ⟨h1, h2⟩ h
    · by_cases hse : s ≤ e
      · exact Or.inr (Or.inr hse)
      · push_neg at hse
        rcases lt_or_le e mn with h1 | h1
        · exact Or.inl h1
        · rcases lt_or_le mx e with h2 | h2
          · exact Or.inr (Or.inl (lt_trans h2 hse))
          · exact absurd ⟨h1, h2⟩ h

/-! ### C7: sweep-mode `set_bounds` -/

/-- C7 (amended): over the nonempty ordered wavelength list `w0 :: ws`
(with `min`/`max` as computed at `SweepMode.__init__`):
`set_bounds(start, end)` raises `ValueError` — writing nothing — exactly
when `start <= end` or a bound lies outside the calibrated range;
otherwise it resolves each bound to itself when it is in the table and to
a closest table wavelength when not, and writes the span whose start index
is the FIRST occurrence of the resolved start and whose end index is
`first occurrence + count - 1` of the resolved end — which is the LAST
occurrence of that wavelength when its occurrences are contiguous (as for
hop-duplicates of a monotone table), but not for arbitrary orderings. -/
theorem sweepSetBounds_spec (w0 startWl endWl : ℚ) (ws : List ℚ) :
    (sweepSetBounds w0 ws startWl endWl = .error .valueError ↔
      (startWl ≤ endWl ∨
       ¬(pyMin w0 ws ≤ startWl ∧ startWl ≤ pyMaxGo w0 ws) ∨
       ¬(pyMin w0 ws ≤ endWl ∧ endWl ≤ pyMaxGo w0 ws))) ∧
    (endWl < startWl → pyMin w0 ws ≤ endWl → startWl ≤ pyMaxGo w0 ws →
      ∃ rs re, rs ∈ w0 :: ws ∧ re ∈ w0 :: ws ∧
        (startWl ∈ w0 :: ws → rs = startWl) ∧
        (startWl ∉ w0 :: ws → ∀ x ∈ w0 :: ws, |rs - startWl| ≤ |x - startWl|) ∧
        (endWl ∈ w0 :: ws → re = endWl) ∧
        (endWl ∉ w0 :: ws → ∀ x ∈ w0 :: ws, |re - endWl| ≤ |x - endWl|) ∧
        sweepSetBounds w0 ws startWl endWl =
          .ok (pyIndex (w0 :: ws) rs, pyIndex (w0 :: ws) re + (w0 :: ws).count re - 1) ∧
        (w0 :: ws)[pyIndex (w0 :: ws) rs]? = some rs ∧
        (∀ j < pyIndex (w0 :: ws) rs, (w0 :: ws)[j]? ≠ some rs) ∧
        (ContigOcc (w0 :: ws) re →
          (w0 :: ws)[pyIndex (w0 :: ws) re + (w0 :: ws).count re - 1]? = some re ∧
          ∀ j, pyIndex (w0 :: ws) re + (w0 :: ws).count re - 1 < j →
            (w0 :: ws)[j]? ≠ some re)) := by
  constructor
  · rw [← rejectCond_iff (pyMin w0 ws) (pyMaxGo w0 ws) startWl endWl]
    constructor
    · intro herr
      by_cases h1 : endWl < pyMin w0 ws ∨ startWl > pyMaxGo w0 ws
      · rcases h1 with h1 | h1
        · exact Or.inl h1
        · exact Or.inr (Or.inl h1)
      · by_cases h2 : startWl ≤ endWl
        · exact Or.inr (Or.inr h2)
        · exfalso
          simp only [sweepSetBounds, if_neg h1, if_neg h2] at herr
          exact Except.noConfusion herr
    · intro hcond
      by_cases h1 : endWl < pyMin w0 ws ∨ startWl > pyMaxGo w0 ws
      · simp only [sweepSetBounds, if_pos h1]
      · have h2 : startWl ≤ endWl := by
          push_neg at h1
          rcases hcond with h | h | h
          · exact absurd h (not_lt.mpr h1.1)
          · exact absurd h (not_lt.mpr h1.2)
          · exact h
        simp only [sweepSetBounds, if_neg h1, if_pos h2]
  · intro hse hmn hmx
    have h1 : ¬(endWl < pyMin w0 ws ∨ startWl > pyMaxGo w0 ws) := by
      push_neg
      exact ⟨hmn, hmx⟩
    have h2 : ¬(startWl ≤ endWl) := not_le.mpr hse
    have hrsmem : (if startWl ∈ w0 :: ws then startWl
        else pyMinByGo (fun x => |x - startWl|) w0 ws) ∈ w0 :: ws := by
      by_cases hs : startWl ∈ w0 :: ws
      · rw [if_pos hs]; exact hs
      · rw [if_neg hs]
        rcases pyMinByGo_mem (fun x => |x - startWl|) ws w0 with h | h
        · rw [h]; exact List.mem_cons_self w0 ws
        · exact List.mem_cons_of_mem w0 h
    have hremem : (if endWl ∈ w0 :: ws then endWl
        else pyMinByGo (fun x => |x - endWl|) w0 ws) ∈ w0 :: ws := by
      by_cases hs : endWl ∈ w0 :: ws
      · rw [if_pos hs]; exact hs
      · rw [if_neg hs]
        rcases pyMinByGo_mem (fun x => |x - endWl|) ws w0 with h | h
        · rw [h]; exact List.mem_cons_self w0 ws
        · exact List.mem_cons_of_mem w0 h
    refine ⟨_, _, hrsmem, hremem, ?_, ?_, ?_, ?_, ?_,
      (pyIndex_first _ _ hrsmem).1, (pyIndex_first _ _ hrsmem).2, ?_⟩
    · intro hs
      rw [if_pos hs]
    · intro hs x hx
      rw [if_neg hs]
      obtain ⟨hle1, hle2⟩ := pyMinByGo_le (fun x => |x - startWl|) ws w0
      rcases List.mem_cons.mp hx with hx1 | hx2
      · rw [hx1]; exact hle1
      · exact hle2 x hx2
    · intro hs
      rw [if_pos hs]
    · intro hs x hx
      rw [if_neg hs]
      obtain ⟨hle1, hle2⟩ := pyMinByGo_le (fun x => |x - endWl|) ws w0
      rcases List.mem_cons.mp hx with hx1 | hx2
      · rw [hx1]; exact hle1
      · exact hle2 x hx2
    · simp only [sweepSetBounds, if_neg h1, if_neg h2]
    · intro hcontig
      exact firstIdx_count_last (w0 :: ws) _ hremem hcontig

/-- C7 (counterexample): on the wavelength list `[1560, 1550, 1555, 1550]`
— where the two occurrences of 1550 are NOT contiguous —
`set_bounds(1560, 1550)` passes validation and writes the span `(0, 2)`:
the end index `first occurrence (1) + count (2) - 1 = 2` addresses 1555,
not the last occurrence of 1550 (index 3), so the claim's "last occurrence
of end_wl" description of the written span is false as stated. -/
theorem sweepSetBounds_last_occurrence_counterexample :
    sweepSetBounds 1560 [1550, 1555, 1550] 1560 1550 = .ok (0, 2) ∧
    ([1560, 1550, 1555, 1550] : List ℚ)[2]? = some 1555 ∧
    ([1560, 1550, 1555, 1550] : List ℚ)[3]? = some 1550 ∧
    (1555 : ℚ) ≠ 1550 := by
  exact ⟨rfl, rfl, rfl, by norm_num⟩

/-- Witness for C7's amended theorem: bounds `(1560, 1550)` on the list
`[1560, 1550]` are accepted and resolved to the span `(0, 1)`. -/
theorem sweepSetBounds_spec_witness :
    ((1550 : ℚ) < 1560 ∧ pyMin 1560 [1550] ≤ 1550 ∧ (1560 : ℚ) ≤ pyMaxGo 1560 [1550]) ∧
    (∃ rs re, rs ∈ (1560 : ℚ) :: [1550] ∧ re ∈ (1560 : ℚ) :: [1550] ∧
      ((1560 : ℚ) ∈ (1560 : ℚ) :: [1550] → rs = 1560) ∧
      ((1560 : ℚ) ∉ (1560 : ℚ) :: [1550] →
        ∀ x ∈ (1560 : ℚ) :: [1550], |rs - 1560| ≤ |x - 1560|) ∧
      ((1550 : ℚ) ∈ (1560 : ℚ) :: [1550] → re = 1550) ∧
      ((1550 : ℚ) ∉ (1560 : ℚ) :: [1550] →
        ∀ x ∈ (1560 : ℚ) :: [1550], |re - 1550| ≤ |x - 1550|) ∧
      sweepSetBounds 1560 [1550] 1560 1550 =
        .ok (pyIndex ((1560 : ℚ) :: [1550]) rs,
             pyIndex ((1560 : ℚ) :: [1550]) re + ((1560 : ℚ) :: [1550]).count re - 1) ∧
      ((1560 : ℚ) :: [1550])[pyIndex ((1560 : ℚ) :: [1550]) rs]? = some rs ∧
      (∀ j < pyIndex ((1560 : ℚ) :: [1550]) rs, ((1560 : ℚ) :: [1550])[j]? ≠ some rs) ∧
      (ContigOcc ((1560 : ℚ) :: [1550]) re →
        ((1560 : ℚ) :: [1550])[pyIndex ((1560 : ℚ) :: [1550]) re +
          ((1560 : ℚ) :: [1550]).count re - 1]? = some re ∧
        ∀ j, pyIndex ((1560 : ℚ) :: [1550]) re + ((1560 : ℚ) :: [1550]).count re - 1 < j →
          ((1560 : ℚ) :: [1550])[j]? ≠ some re)) := by
  have hmn : pyMin 1560 [1550] ≤ (1550 : ℚ) := by
    rw [show pyMin 1560 [1550] = pyMinByGo (fun y => y) 1560 [1550] from rfl,
      pyMinByGo, pyMinByGo]
    norm_num
  have hmx : (1560 : ℚ) ≤ pyMaxGo 1560 [1550] := by
    rw [pyMaxGo, pyMaxGo]
    norm_num
  exact ⟨⟨by norm_num, hmn, hmx⟩,
    (sweepSetBounds_spec 1560 1560 1550 [1550]).2 (by norm_num) hmn hmx⟩
